import Mathlib

/-!
Shallow embedding of the rule engine and AI decision module of the
Capture the King game (src/app.py) together with proofs about it.

Conventions of the embedding:
* the 5 by 5 board (ROWS = COLS = 5 in app.py) is a total function from
  grid coordinates to cell contents; the Python nested list with in-place
  assignment becomes pointwise functional update (setCell);
* Python int coordinates are Lean Int; scalar counters are Nat;
* the Python float score of evaluate_board is an exact rational: all
  score contributions are integers except one division by the knight
  count, so the arithmetic is rational;
* loops that accumulate or early-return are folds, filters and bounded
  existentials over the same index ranges, in the same order;
* the global safe_zones list (empty by default, configurable per game,
  spec section 3) is passed as an explicit parameter named sz;
* randomness (random.choice among the best scoring moves) is modelled by
  returning the whole candidate list the source chooses from.
-/

/-- Cell contents of a board square: app.py lines 28-30
(EMPTY, KING, KNIGHT). -/
inductive Cell
  | empty
  | king
  | knight
deriving DecidableEq

/-- ROWS, app.py line 12. -/
def ROWS : Nat := 5

/-- COLS, app.py line 12. -/
def COLS : Nat := 5

/-- knight_moves, app.py lines 33-34. -/
def knight_moves : List (Int × Int) :=
  [(-2, -1), (-2, 1), (-1, -2), (-1, 2), (1, -2), (1, 2), (2, -1), (2, 1)]

/-- king_moves, app.py lines 35-36. -/
def king_moves : List (Int × Int) :=
  [(-1, -1), (-1, 0), (-1, 1), (0, -1), (0, 1), (1, -1), (1, 0), (1, 1)]

/-- The board: one cell for each of the 5 x 5 squares. -/
def Board : Type := Fin 5 → Fin 5 → Cell

/-- The bounds test 0 <= r < ROWS and 0 <= c < COLS used throughout
app.py (ROWS = COLS = 5). -/
abbrev InB (r c : Int) : Prop := 0 ≤ r ∧ r < 5 ∧ 0 ≤ c ∧ c < 5

/-- Reading board[r][c]. All value-relevant reads in the source are
bounds-checked first; out of bounds we return empty. -/
def cell (b : Board) (r c : Int) : Cell :=
  if h : InB r c then
    b ⟨r.toNat, by obtain ⟨h1, h2, h3, h4⟩ := h; omega⟩
      ⟨c.toNat, by obtain ⟨h1, h2, h3, h4⟩ := h; omega⟩
  else Cell.empty

/-- Writing board[r][c] = v (pointwise functional update). -/
def setCell (b : Board) (r c : Int) (v : Cell) : Board :=
  fun i j => if ((i.val : Int) = r ∧ (j.val : Int) = c) then v else b i j

/-- All squares in row-major order, the iteration order of the nested
for r in range(ROWS): for c in range(COLS) loops of app.py. -/
def squaresList : List (Int × Int) :=
  (List.range 5).flatMap (fun r => (List.range 5).map (fun c => ((r : Int), (c : Int))))

/-- Game.get_piece_positions, app.py lines 372-379: all positions of a
given piece type, scanned in row-major order. -/
def get_piece_positions (b : Board) (t : Cell) : List (Int × Int) :=
  squaresList.filter (fun p => decide (cell b p.1 p.2 = t))

/-- Number of cells holding a given piece type. -/
def piece_count (b : Board) (t : Cell) : Nat :=
  (get_piece_positions b t).length

/-- A board of EMPTY cells, app.py line 118. -/
def emptyBoard : Board := fun _ _ => Cell.empty

/-- Game.create_board, app.py lines 115-124: king at the center
(ROWS//2, COLS//2) = (2,2), knights at the four corners. -/
def create_board : Board :=
  let b0 := setCell emptyBoard 2 2 Cell.king
  [((0 : Int), (0 : Int)), (0, 4), (4, 0), (4, 4)].foldl
    (fun b p => setCell b p.1 p.2 Cell.knight) b0

/-- Game._find_king, app.py lines 126-134: first king position in
row-major scan, falling back to the center. -/
def find_king (b : Board) : Int × Int :=
  match get_piece_positions b Cell.king with
  | [] => (2, 2)
  | p :: _ => p

/-- Game.is_square_under_attack, app.py lines 217-223: some knight sits
a knight-offset away from (r, c). -/
def is_square_under_attack (b : Board) (r c : Int) : Prop :=
  ∃ d ∈ knight_moves, InB (r + d.1) (c + d.2) ∧ cell b (r + d.1) (c + d.2) = Cell.knight

instance (b : Board) (r c : Int) : Decidable (is_square_under_attack b r c) := by
  unfold is_square_under_attack; infer_instance

/-- Game.get_valid_moves, app.py lines 225-241. -/
def get_valid_moves (b : Board) (r c : Int) : List (Int × Int) :=
  if InB r c then
    match cell b r c with
    | Cell.king =>
        king_moves.filterMap (fun d =>
          let nr := r + d.1
          let nc := c + d.2
          if InB nr nc ∧ (cell b nr nc = Cell.empty ∨ cell b nr nc = Cell.knight) ∧
              ¬ is_square_under_attack b nr nc
          then some (nr, nc) else none)
    | Cell.knight =>
        knight_moves.filterMap (fun d =>
          let nr := r + d.1
          let nc := c + d.2
          if InB nr nc ∧ cell b nr nc = Cell.empty then some (nr, nc) else none)
    | Cell.empty => []
  else []

/-- The surrounding-knights count of app.py lines 342-346 (also lines
491-495): knights at knight-offsets around (kr, kc). -/
def surrounding_knights (b : Board) (kr kc : Int) : Nat :=
  knight_moves.countP
    (fun d => decide (InB (kr + d.1) (kc + d.2) ∧ cell b (kr + d.1) (kc + d.2) = Cell.knight))

/-- The snapshot pushed by Game.attempt_move, app.py lines 269-275
(move_info dictionary). board copies are value copies here. -/
structure MoveRecord where
  start_pos : Int × Int
  end_pos : Int × Int
  piece_moved : Cell
  piece_captured : Cell
  king_kills_before : Nat
  player_turn_before : Nat
  king_pos_before : Int × Int
  turn_count_before : Nat
  board_state : Board
  charge_cd_before : Nat
  escape_avail_before : Bool

/-- The core game state, the fields of Game.reset_game_state, app.py
lines 91-113, omitting the presentation-only fields (clock times, AI
taunt message and timer, ai_thinking flag, window handles). The history
stack keeps the most recent record first (the Python list appends and
pops at its end, same stack). -/
structure Game where
  board : Board
  king_pos : Int × Int
  player_turn : Nat
  selected_piece_pos : Option (Int × Int)
  possible_moves : List (Int × Int)
  game_over : Bool
  winner : Nat
  king_kills : Nat
  turn_count : Nat
  move_history : List MoveRecord
  king_charge_cooldown : Nat
  king_escape_available : Bool

/-- The state produced by Game.reset_game_state, app.py lines 91-113. -/
def initGame : Game :=
  { board := create_board
    king_pos := find_king create_board
    player_turn := 1
    selected_piece_pos := none
    possible_moves := []
    game_over := false
    winner := 0
    king_kills := 0
    turn_count := 1
    move_history := []
    king_charge_cooldown := 0
    king_escape_available := true }

/-- Game.switch_turn, app.py lines 300-305: turn_count increments when
player 2 just moved, then the turn flips 1 to 2 to 1. -/
def switch_turn (g : Game) : Game :=
  let tc := if g.player_turn = 2 then g.turn_count + 1 else g.turn_count
  { g with turn_count := tc, player_turn := 3 - g.player_turn }

/-- Game.check_game_over, app.py lines 307-370: the if-chain of
terminal conditions, first true condition returns. The king_pos-is-None
guard of lines 312-316 cannot fire in this model because king_pos is
always a concrete pair. sz stands for the global safe_zones list. -/
def check_game_over (sz : List (Int × Int)) (g : Game) : Game :=
  if g.king_pos ∈ sz then { g with winner := 1, game_over := true }
  else if 3 ≤ g.king_kills then { g with winner := 1, game_over := true }
  else if get_piece_positions g.board Cell.knight = [] then
    { g with winner := 1, game_over := true }
  else if 3 ≤ surrounding_knights g.board g.king_pos.1 g.king_pos.2 then
    { g with winner := 2, game_over := true }
  else if get_valid_moves g.board g.king_pos.1 g.king_pos.2 = [] then
    { g with winner := 2, game_over := true }
  else if 30 ≤ g.turn_count then { g with winner := 2, game_over := true }
  else { g with winner := 0, game_over := false }

/-- Game.select_piece, app.py lines 243-253 (the core selection rule;
the ai_thinking and player-versus-AI input gates of line 246 are input
glue). Returns the success flag and the new state. -/
def select_piece (g : Game) (row col : Int) : Bool × Game :=
  if InB row col ∧
      ((g.player_turn = 1 ∧ cell g.board row col = Cell.king) ∨
       (g.player_turn = 2 ∧ cell g.board row col = Cell.knight)) then
    (true, { g with selected_piece_pos := some (row, col),
                    possible_moves := get_valid_moves g.board row col })
  else
    (false, { g with selected_piece_pos := none, possible_moves := [] })

/-- Game.attempt_move, app.py lines 255-298. Returns the success flag
and the new state. The AI taunt trigger of lines 284-289 is
presentation-only. -/
def attempt_move (sz : List (Int × Int)) (g : Game) (end_row end_col : Int) : Bool × Game :=
  match g.selected_piece_pos with
  | none => (false, g)
  | some sp =>
    let start_row := sp.1
    let start_col := sp.2
    let piece_moved := cell g.board start_row start_col
    if (end_row, end_col) ∉ get_valid_moves g.board start_row start_col then
      (false, { g with selected_piece_pos := none, possible_moves := [] })
    else
      let record : MoveRecord :=
        { start_pos := (start_row, start_col)
          end_pos := (end_row, end_col)
          piece_moved := piece_moved
          piece_captured := cell g.board end_row end_col
          king_kills_before := g.king_kills
          player_turn_before := g.player_turn
          king_pos_before := g.king_pos
          turn_count_before := g.turn_count
          board_state := g.board
          charge_cd_before := g.king_charge_cooldown
          escape_avail_before := g.king_escape_available }
      let target_content := cell g.board end_row end_col
      let kills := if piece_moved = Cell.king ∧ target_content = Cell.knight
                   then g.king_kills + 1 else g.king_kills
      let board1 := setCell g.board start_row start_col Cell.empty
      let board2 := setCell board1 end_row end_col piece_moved
      let kpos := if piece_moved = Cell.king then (end_row, end_col) else g.king_pos
      let cdn := if g.player_turn = 1 ∧ 0 < g.king_charge_cooldown
                 then g.king_charge_cooldown - 1 else g.king_charge_cooldown
      let g1 := { g with board := board2, king_pos := kpos, king_kills := kills,
                         king_charge_cooldown := cdn,
                         move_history := record :: g.move_history }
      let g2 := switch_turn g1
      let g3 := check_game_over sz g2
      (true, { g3 with selected_piece_pos := none, possible_moves := [] })

/-- Game.undo_last_move, app.py lines 414-426: no-op on empty history,
otherwise pop the most recent record and restore every captured field,
clearing selection and the terminal flags. -/
def undo_last_move (g : Game) : Game :=
  match g.move_history with
  | [] => g
  | last :: rest =>
    { g with move_history := rest
             board := last.board_state
             king_kills := last.king_kills_before
             player_turn := last.player_turn_before
             king_pos := last.king_pos_before
             turn_count := last.turn_count_before
             king_charge_cooldown := last.charge_cd_before
             king_escape_available := last.escape_avail_before
             selected_piece_pos := none
             possible_moves := []
             game_over := false
             winner := 0 }

/-- The extended-move computation of Game.activate_royal_charge, app.py
lines 567-575: squares two king-steps away, in bounds, empty or
knight, not under attack. -/
def charge_moves (b : Board) (kr kc : Int) : List (Int × Int) :=
  king_moves.filterMap (fun d =>
    let nr := kr + d.1 * 2
    let nc := kc + d.2 * 2
    if InB nr nc ∧ (cell b nr nc = Cell.empty ∨ cell b nr nc = Cell.knight) ∧
        ¬ is_square_under_attack b nr nc
    then some (nr, nc) else none)

/-- Game.activate_royal_charge, app.py lines 558-584: gated on the king
turn and zero cooldown; when some extended move exists the king is
selected with those moves and the cooldown becomes 5, otherwise the
activation logs a failure and changes nothing. -/
def activate_royal_charge (g : Game) : Game :=
  if g.player_turn ≠ 1 ∨ 0 < g.king_charge_cooldown then g
  else if charge_moves g.board g.king_pos.1 g.king_pos.2 ≠ [] then
    { g with selected_piece_pos := some g.king_pos
             possible_moves := charge_moves g.board g.king_pos.1 g.king_pos.2
             king_charge_cooldown := 5 }
  else g

/-- The escape-move computation of the first definition of
Game.activate_royal_escape, app.py lines 594-612: every empty square
that is not under attack and not king-adjacent to a knight (row-major),
then every empty safe zone square. -/
def escape_moves (sz : List (Int × Int)) (b : Board) : List (Int × Int) :=
  squaresList.filter (fun p => decide (cell b p.1 p.2 = Cell.empty ∧
      ¬ is_square_under_attack b p.1 p.2 ∧
      ¬ ∃ d ∈ king_moves, InB (p.1 + d.1) (p.2 + d.2) ∧
          cell b (p.1 + d.1) (p.2 + d.2) = Cell.knight))
  ++ sz.filter (fun s => decide (cell b s.1 s.2 = Cell.empty))

/-- The FIRST definition of Game.activate_royal_escape, app.py lines
586-621: gated on the king turn and the one-shot flag; when some escape
move exists the king is selected with those moves and the flag is
cleared for good. In the running program this definition is dead code,
see activate_royal_escape below. -/
def activate_royal_escape_body (sz : List (Int × Int)) (g : Game) : Game :=
  if g.player_turn ≠ 1 ∨ g.king_escape_available = false then g
  else if escape_moves sz g.board ≠ [] then
    { g with selected_piece_pos := some g.king_pos
             possible_moves := escape_moves sz g.board
             king_escape_available := false }
  else g

/-- The SECOND definition of Game.activate_royal_escape, app.py line
622. In a Python class body a later def of the same name replaces the
earlier one, so this stub, which only logs and passes, is the method the
program actually calls: it leaves the state unchanged. -/
def activate_royal_escape (g : Game) : Game := g

/-- Manhattan distance abs(r1 - r2) + abs(c1 - c2) as used throughout
Game.evaluate_board. -/
def manhattan (a b : Int × Int) : Nat :=
  (a.1 - b.1).natAbs + (a.2 - b.2).natAbs

/-- The total_distance accumulator of app.py lines 474-477: sum of
Manhattan distances from every knight to the king. -/
def total_distance (b : Board) (kr kc : Int) : Nat :=
  ((get_piece_positions b Cell.knight).map (fun kp => manhattan kp (kr, kc))).sum

/-- The threat accumulation of app.py lines 479-483: inside the loop
over knights, 5 is added for EACH legal destination of the knight whose
Manhattan distance to the king is at most 2. -/
def threat_bonus (b : Board) (kr kc : Int) : ℤ :=
  (get_piece_positions b Cell.knight).foldl (fun acc kp =>
    (get_valid_moves b kp.1 kp.2).foldl (fun acc2 m =>
      if manhattan m (kr, kc) ≤ 2 then acc2 + 5 else acc2) acc) 0

/-- The average-distance term of app.py lines 485-488: computed only
when at least one knight remains (otherwise nothing is added). -/
def avg_distance_term (b : Board) (kr kc : Int) : ℚ :=
  if get_piece_positions b Cell.knight = [] then 0
  else (7 - (total_distance b kr kc : ℚ) / ((get_piece_positions b Cell.knight).length : ℚ)) * 8

/-- The safe-zone denial accumulation of app.py lines 498-503: 10 per
(safe zone, knight) pair at Manhattan distance at most 2. -/
def safe_zone_denial (sz : List (Int × Int)) (b : Board) : ℤ :=
  sz.foldl (fun acc s =>
    (get_piece_positions b Cell.knight).foldl (fun acc2 kp =>
      if manhattan kp s ≤ 2 then acc2 + 10 else acc2) acc) 0

/-- The closest-safe-zone blocking accumulation of app.py lines
505-518: min over king-to-zone distances (0 when no zones), then 15 per
(knight, zone) pair where the zone is at that minimum distance from the
king and within Manhattan distance 2 of the knight. -/
def closest_zone_block (sz : List (Int × Int)) (b : Board) (kr kc : Int) : ℤ :=
  let king_to_safe_distances := sz.map (fun s => manhattan (kr, kc) s)
  let min_distance := king_to_safe_distances.min?.getD 0
  (get_piece_positions b Cell.knight).foldl (fun acc kp =>
    sz.foldl (fun acc2 s =>
      if manhattan (kr, kc) s = min_distance ∧ manhattan s kp ≤ 2
      then acc2 + 15 else acc2) acc) 0

/-- Game.evaluate_board, app.py lines 457-527, on a hypothetical board
with the cached king position and the turn count, written as the sum of
the named accumulations above (the source accumulates the same
contributions into one score variable). The king_pos-is-None early
return of lines 460-461 cannot fire here because king_pos is a concrete
pair. -/
def evaluate_board (sz : List (Int × Int)) (b : Board) (kp : Int × Int) (tc : Nat) : ℚ :=
  ((get_piece_positions b Cell.knight).length : ℚ) * 15
  - ((get_valid_moves b kp.1 kp.2).length : ℚ) * 10
  + (threat_bonus b kp.1 kp.2 : ℚ)
  + avg_distance_term b kp.1 kp.2
  + (surrounding_knights b kp.1 kp.2 : ℚ) * 20
  + (safe_zone_denial sz b : ℚ)
  + (closest_zone_block sz b kp.1 kp.2 : ℚ)
  + (if is_square_under_attack b kp.1 kp.2 then 25 else 0)
  + (tc : ℚ) * 2

/-- The possible_ai_moves enumeration of Game.ai_make_move, app.py
lines 534-537: every (knight position, legal destination) pair. -/
def possible_ai_moves (b : Board) : List ((Int × Int) × (Int × Int)) :=
  (get_piece_positions b Cell.knight).flatMap (fun sp =>
    (get_valid_moves b sp.1 sp.2).map (fun ep => (sp, ep)))

/-- The scratch application of a move inside Game.ai_make_move, app.py
lines 542-543: clear the start square, put the moved piece on the end
square. -/
def apply_hypo (b : Board) (m : (Int × Int) × (Int × Int)) : Board :=
  let piece := cell b m.1.1 m.1.2
  setCell (setCell b m.1.1 m.1.2 Cell.empty) m.2.1 m.2.2 piece

/-- The score Game.ai_make_move assigns to one candidate move: the
evaluation of the hypothetical board (the king position and turn count
are unchanged by a knight move). -/
def ai_move_score (sz : List (Int × Int)) (g : Game) (m : (Int × Int) × (Int × Int)) : ℚ :=
  evaluate_board sz (apply_hypo g.board m) g.king_pos g.turn_count

/-- One iteration of the best-score tracking of app.py lines 546-549:
a strictly better score resets the candidate list, an equal score
appends, a worse score leaves it alone. The starting accumulator none
plays the role of best_score = minus infinity. -/
def ai_step {α : Type} (score : α → ℚ) (acc : Option (ℚ × List α)) (m : α) :
    Option (ℚ × List α) :=
  match acc with
  | none => some (score m, [m])
  | some (best, cands) =>
    if best < score m then some (score m, [m])
    else if score m = best then some (best, cands ++ [m])
    else some (best, cands)

/-- The fold of app.py lines 541-549 over the enumerated moves. -/
def best_candidates {α : Type} (score : α → ℚ) :
    Option (ℚ × List α) → List α → Option (ℚ × List α)
  | acc, [] => acc
  | acc, m :: l => best_candidates score (ai_step score acc m) l

/-- Game.ai_make_move, app.py lines 529-553: none when no knight has
any legal move, otherwise the candidate list of maximal-score moves
from which line 551 picks uniformly at random (the random choice is
modelled by returning the whole candidate list). -/
def ai_make_move (sz : List (Int × Int)) (g : Game) :
    Option (List ((Int × Int) × (Int × Int))) :=
  if possible_ai_moves g.board = [] then none
  else
    match best_candidates (ai_move_score sz g) none (possible_ai_moves g.board) with
    | none => none
    | some (_, cands) => some cands

/-- Validity invariant of the best-score fold: relative to the moves
seen so far, a some-accumulator holds the maximal score, that score is
attained, and the candidates are exactly the seen moves attaining it in
order. -/
def BCValid {α : Type} (score : α → ℚ) (seen : List α) :
    Option (ℚ × List α) → Prop
  | none => seen = []
  | some (best, cands) =>
      (∀ m ∈ seen, score m ≤ best) ∧ (∃ m ∈ seen, score m = best) ∧
      cands = seen.filter (fun m => decide (score m = best))

/-- Modelled from the claim wording of C8: the knights whose own legal
destinations include at least one square within Manhattan distance 2 of
the king. -/
def knights_with_close_dest (b : Board) (kr kc : Int) : List (Int × Int) :=
  (get_piece_positions b Cell.knight).filter (fun kp =>
    decide (∃ m ∈ get_valid_moves b kp.1 kp.2, manhattan m (kr, kc) ≤ 2))

/-- One full user interaction: select the piece at (sr, sc), then
attempt to move it to (er, ec), as the click handler of app.py lines
393-400 drives the core. -/
def game_move (sz : List (Int × Int)) (g : Game) (sr sc er ec : Int) : Game :=
  (attempt_move sz (select_piece g sr sc).2 er ec).2

/-- A position reached from the fresh game by five legal moves played
through select_piece and attempt_move with no safe zones: the king
walks (2,2) to (1,1) and back while two knights approach, then captures
the knight on (3,2). Used to exercise undo after a capture. -/
def c9_state : Game :=
  game_move [] (game_move [] (game_move [] (game_move [] (game_move []
    initGame 2 2 1 1) 4 4 3 2) 1 1 2 2) 4 0 2 1) 2 2 3 2

/-- King at (0,0) with knights at (0,1) and (2,1): every square two
king-steps away is either out of bounds or under attack. -/
def c6_board : Board :=
  setCell (setCell (setCell emptyBoard 0 0 Cell.king) 0 1 Cell.knight) 2 1 Cell.knight

/-- A king-turn state with zero charge cooldown on c6_board. -/
def c6_state : Game :=
  { initGame with board := c6_board, king_pos := (0, 0) }

/-- King at (2,2) and a single knight at (0,1): that knight has two
legal destinations within Manhattan distance 2 of the king. -/
def c8_board : Board :=
  setCell (setCell emptyBoard 2 2 Cell.king) 0 1 Cell.knight

/-- A one-element safe zone list for the terminal-priority witness. -/
def c2_zones : List (Int × Int) := [(0, 0)]

/-- A state whose king stands on the safe zone square (0,0) while the
turn count has already reached 30. -/
def c2_state : Game :=
  { initGame with
      board := setCell (setCell create_board 2 2 Cell.empty) 0 0 Cell.king
      king_pos := (0, 0)
      turn_count := 30 }

/-- The fresh game with the king selected. -/
def c1_state : Game :=
  { initGame with selected_piece_pos := some (2, 2),
                  possible_moves := get_valid_moves create_board 2 2 }

/-- The fresh game with the king selected, for the illegal-move case. -/
def c5_state : Game :=
  { initGame with selected_piece_pos := some (2, 2),
                  possible_moves := get_valid_moves create_board 2 2 }

/-- The exactly-one-king board invariant, together with the same on
every board snapshot stored in the history stack (undo restores one of
those snapshots, so the stack must carry the invariant too). -/
def one_king_inv (g : Game) : Prop :=
  piece_count g.board Cell.king = 1 ∧
  ∀ r ∈ g.move_history, piece_count r.board_state Cell.king = 1


/-! ### Helper lemmas about the board primitives -/

lemma cell_setCell_self (b : Board) (r c : Int) (v : Cell) (h : InB r c) :
    cell (setCell b r c v) r c = v := by
  obtain ⟨h1, h2, h3, h4⟩ := h
  simp only [cell, setCell, dif_pos (⟨h1, h2, h3, h4⟩ : InB r c)]
  split_ifs with hcond
  · rfl
  · exfalso
    apply hcond
    refine ⟨?_, ?_⟩
    · show ((r.toNat : Int)) = r
      omega
    · show ((c.toNat : Int)) = c
      omega

lemma cell_setCell_ne (b : Board) (r c : Int) (v : Cell) (r' c' : Int)
    (h : (r', c') ≠ (r, c)) :
    cell (setCell b r c v) r' c' = cell b r' c' := by
  by_cases hin : InB r' c'
  · obtain ⟨h1, h2, h3, h4⟩ := hin
    simp only [cell, setCell, dif_pos (⟨h1, h2, h3, h4⟩ : InB r' c')]
    split_ifs with hcond
    · exfalso
      have hr : ((r'.toNat : Int)) = r := hcond.1
      have hc : ((c'.toNat : Int)) = c := hcond.2
      apply h
      have hr' : r' = r := by omega
      have hc' : c' = c := by omega
      rw [hr', hc']
    · rfl
  · rw [cell, cell, dif_neg hin, dif_neg hin]

lemma mem_squaresList (p : Int × Int) : p ∈ squaresList ↔ InB p.1 p.2 := by
  constructor
  · intro hp
    have hall : ∀ q ∈ squaresList, InB q.1 q.2 := by decide
    exact hall p hp
  · rintro ⟨h1, h2, h3, h4⟩
    have hp : p = ((p.1.toNat : Int), (p.2.toNat : Int)) := by
      have e1 : ((p.1.toNat : Int)) = p.1 := by omega
      have e2 : ((p.2.toNat : Int)) = p.2 := by omega
      rw [e1, e2]
    rw [hp]
    have hall : ∀ (i j : Fin 5), ((i.val : Int), (j.val : Int)) ∈ squaresList := by decide
    exact hall ⟨p.1.toNat, by omega⟩ ⟨p.2.toNat, by omega⟩

lemma nodup_squaresList : squaresList.Nodup := by decide

lemma countP_update {α : Type} (f f' : α → Bool) :
    ∀ (l : List α), l.Nodup → ∀ p0 ∈ l, (∀ x ∈ l, x ≠ p0 → f x = f' x) →
      l.countP f' + (if f p0 then 1 else 0) = l.countP f + (if f' p0 then 1 else 0) := by
  intro l
  induction l with
  | nil => intro _ p0 h; cases h
  | cons a l ih =>
    intro hnd p0 hp0 hfg
    rcases List.mem_cons.mp hp0 with rfl | hp0l
    · have hnotin : p0 ∉ l := (List.nodup_cons.mp hnd).1
      have hcong : l.countP f' = l.countP f := by
        refine List.countP_congr (fun x hx => ?_)
        rw [hfg x (List.mem_cons_of_mem _ hx) (fun hxe => hnotin (hxe ▸ hx))]
      rw [List.countP_cons, List.countP_cons, hcong]
      cases hf : f p0 <;> cases hf' : f' p0 <;> simp [hf, hf'] <;> omega
    · have hane : a ≠ p0 := fun h => ((List.nodup_cons.mp hnd).1 (h ▸ hp0l))
      have hfa : f a = f' a := hfg a (List.mem_cons_self a l) hane
      have hrec := ih (List.nodup_cons.mp hnd).2 p0 hp0l
        (fun x hx hne => hfg x (List.mem_cons_of_mem _ hx) hne)
      rw [List.countP_cons, List.countP_cons, hfa]
      omega

lemma piece_count_setCell (b : Board) (r c : Int) (v : Cell) (t : Cell) (h : InB r c) :
    piece_count (setCell b r c v) t + (if cell b r c = t then 1 else 0) =
      piece_count b t + (if v = t then 1 else 0) := by
  unfold piece_count get_piece_positions
  rw [← List.countP_eq_length_filter, ← List.countP_eq_length_filter]
  have h0 : (r, c) ∈ squaresList := (mem_squaresList (r, c)).mpr h
  have key := countP_update (fun p => decide (cell (setCell b r c v) p.1 p.2 = t))
      (fun p => decide (cell b p.1 p.2 = t)) squaresList nodup_squaresList (r, c) h0
      (fun x _ hne => by simp only [cell_setCell_ne b r c v x.1 x.2 (by
        intro he
        apply hne
        have : x = (x.1, x.2) := rfl
        rw [this, he])])
  simp only [cell_setCell_self b r c v h, decide_eq_true_eq] at key
  omega

/-! ### Characterization of get_valid_moves -/

lemma king_moves_nonzero : ∀ d ∈ king_moves, ¬ (d.1 = 0 ∧ d.2 = 0) := by decide

lemma knight_moves_nonzero : ∀ d ∈ knight_moves, ¬ (d.1 = 0 ∧ d.2 = 0) := by decide

lemma mem_get_valid_moves {b : Board} {r c : Int} {m : Int × Int} :
    m ∈ get_valid_moves b r c ↔
      InB r c ∧
      ((cell b r c = Cell.king ∧ ∃ d ∈ king_moves, m = (r + d.1, c + d.2) ∧
          InB m.1 m.2 ∧ (cell b m.1 m.2 = Cell.empty ∨ cell b m.1 m.2 = Cell.knight) ∧
          ¬ is_square_under_attack b m.1 m.2) ∨
       (cell b r c = Cell.knight ∧ ∃ d ∈ knight_moves, m = (r + d.1, c + d.2) ∧
          InB m.1 m.2 ∧ cell b m.1 m.2 = Cell.empty)) := by
  unfold get_valid_moves
  by_cases h : InB r c
  · rw [if_pos h]
    cases hc : cell b r c
    · simp
    · simp only [List.mem_filterMap, Option.ite_none_right_eq_some, Option.some.injEq, true_and]
      constructor
      · rintro ⟨d, hd, ⟨hin, hcell, hatt⟩, heq⟩
        subst heq
        exact ⟨h, Or.inl ⟨d, hd, rfl, hin, hcell, hatt⟩⟩
      · rintro ⟨-, ⟨d, hd, heq, hin, hcell, hatt⟩ | ⟨hck, -⟩⟩
        · subst heq
          exact ⟨d, hd, ⟨hin, hcell, hatt⟩, rfl⟩
        · cases hck
    · simp only [List.mem_filterMap, Option.ite_none_right_eq_some, Option.some.injEq, true_and]
      constructor
      · rintro ⟨d, hd, ⟨hin, hcell⟩, heq⟩
        subst heq
        exact ⟨h, Or.inr ⟨d, hd, rfl, hin, hcell⟩⟩
      · rintro ⟨-, ⟨hck, -⟩ | ⟨d, hd, heq, hin, hcell⟩⟩
        · cases hck
        · subst heq
          exact ⟨d, hd, ⟨hin, hcell⟩, rfl⟩
  · rw [if_neg h]
    simp [h]

lemma mem_gvm_inb {b : Board} {r c : Int} {m : Int × Int}
    (h : m ∈ get_valid_moves b r c) : InB r c :=
  (mem_get_valid_moves.mp h).1

lemma mem_gvm_piece {b : Board} {r c : Int} {m : Int × Int}
    (h : m ∈ get_valid_moves b r c) :
    cell b r c = Cell.king ∨ cell b r c = Cell.knight := by
  rcases (mem_get_valid_moves.mp h).2 with ⟨hk, _⟩ | ⟨hn, _⟩
  · exact Or.inl hk
  · exact Or.inr hn

lemma mem_gvm_ne {b : Board} {r c : Int} {m : Int × Int}
    (h : m ∈ get_valid_moves b r c) : m ≠ (r, c) := by
  rcases (mem_get_valid_moves.mp h).2 with ⟨_, d, hd, heq, _⟩ | ⟨_, d, hd, heq, _⟩
  · subst heq
    intro hcontra
    rw [Prod.mk.injEq] at hcontra
    rcases not_and_or.mp (king_moves_nonzero d hd) with hz | hz <;> omega
  · subst heq
    intro hcontra
    rw [Prod.mk.injEq] at hcontra
    rcases not_and_or.mp (knight_moves_nonzero d hd) with hz | hz <;> omega

lemma mem_gvm_king_target {b : Board} {r c : Int} {m : Int × Int}
    (h : m ∈ get_valid_moves b r c) (hk : cell b r c = Cell.king) :
    InB m.1 m.2 ∧ (cell b m.1 m.2 = Cell.empty ∨ cell b m.1 m.2 = Cell.knight) := by
  rcases (mem_get_valid_moves.mp h).2 with ⟨_, d, hd, heq, hin, hcell, _⟩ | ⟨hn, _⟩
  · exact ⟨hin, hcell⟩
  · rw [hk] at hn
    cases hn

lemma mem_gvm_knight_target {b : Board} {r c : Int} {m : Int × Int}
    (h : m ∈ get_valid_moves b r c) (hn : cell b r c = Cell.knight) :
    InB m.1 m.2 ∧ cell b m.1 m.2 = Cell.empty := by
  rcases (mem_get_valid_moves.mp h).2 with ⟨hk, _⟩ | ⟨_, d, hd, heq, hin, hcell⟩
  · rw [hn] at hk
    cases hk
  · exact ⟨hin, hcell⟩

/-! ### Field preservation of the transition helpers -/

@[simp] lemma switch_turn_board (g : Game) : (switch_turn g).board = g.board := rfl

@[simp] lemma switch_turn_king_pos (g : Game) : (switch_turn g).king_pos = g.king_pos := rfl

@[simp] lemma switch_turn_king_kills (g : Game) : (switch_turn g).king_kills = g.king_kills := rfl

@[simp] lemma switch_turn_move_history (g : Game) :
    (switch_turn g).move_history = g.move_history := rfl

@[simp] lemma switch_turn_cooldown (g : Game) :
    (switch_turn g).king_charge_cooldown = g.king_charge_cooldown := rfl

@[simp] lemma switch_turn_escape (g : Game) :
    (switch_turn g).king_escape_available = g.king_escape_available := rfl

@[simp] lemma check_game_over_board (sz : List (Int × Int)) (g : Game) :
    (check_game_over sz g).board = g.board := by
  unfold check_game_over; split_ifs <;> rfl

@[simp] lemma check_game_over_king_pos (sz : List (Int × Int)) (g : Game) :
    (check_game_over sz g).king_pos = g.king_pos := by
  unfold check_game_over; split_ifs <;> rfl

@[simp] lemma check_game_over_player_turn (sz : List (Int × Int)) (g : Game) :
    (check_game_over sz g).player_turn = g.player_turn := by
  unfold check_game_over; split_ifs <;> rfl

@[simp] lemma check_game_over_king_kills (sz : List (Int × Int)) (g : Game) :
    (check_game_over sz g).king_kills = g.king_kills := by
  unfold check_game_over; split_ifs <;> rfl

@[simp] lemma check_game_over_turn_count (sz : List (Int × Int)) (g : Game) :
    (check_game_over sz g).turn_count = g.turn_count := by
  unfold check_game_over; split_ifs <;> rfl

@[simp] lemma check_game_over_move_history (sz : List (Int × Int)) (g : Game) :
    (check_game_over sz g).move_history = g.move_history := by
  unfold check_game_over; split_ifs <;> rfl

@[simp] lemma check_game_over_cooldown (sz : List (Int × Int)) (g : Game) :
    (check_game_over sz g).king_charge_cooldown = g.king_charge_cooldown := by
  unfold check_game_over; split_ifs <;> rfl

@[simp] lemma check_game_over_escape (sz : List (Int × Int)) (g : Game) :
    (check_game_over sz g).king_escape_available = g.king_escape_available := by
  unfold check_game_over; split_ifs <;> rfl

@[simp] lemma select_piece_board (g : Game) (row col : Int) :
    (select_piece g row col).2.board = g.board := by
  unfold select_piece; split_ifs <;> rfl

@[simp] lemma select_piece_move_history (g : Game) (row col : Int) :
    (select_piece g row col).2.move_history = g.move_history := by
  unfold select_piece; split_ifs <;> rfl

@[simp] lemma activate_royal_charge_board (g : Game) :
    (activate_royal_charge g).board = g.board := by
  unfold activate_royal_charge; split_ifs <;> rfl

@[simp] lemma activate_royal_charge_move_history (g : Game) :
    (activate_royal_charge g).move_history = g.move_history := by
  unfold activate_royal_charge; split_ifs <;> rfl

@[simp] lemma activate_royal_escape_body_board (sz : List (Int × Int)) (g : Game) :
    (activate_royal_escape_body sz g).board = g.board := by
  unfold activate_royal_escape_body; split_ifs <;> rfl

@[simp] lemma activate_royal_escape_body_move_history (sz : List (Int × Int)) (g : Game) :
    (activate_royal_escape_body sz g).move_history = g.move_history := by
  unfold activate_royal_escape_body; split_ifs <;> rfl

/-! ### The three paths of attempt_move -/

lemma attempt_move_none (sz : List (Int × Int)) (g : Game) (er ec : Int)
    (hsel : g.selected_piece_pos = none) :
    attempt_move sz g er ec = (false, g) := by
  unfold attempt_move
  simp only [hsel]

lemma attempt_move_invalid (sz : List (Int × Int)) (g : Game) (sr sc er ec : Int)
    (hsel : g.selected_piece_pos = some (sr, sc))
    (hmv : (er, ec) ∉ get_valid_moves g.board sr sc) :
    attempt_move sz g er ec =
      (false, { g with selected_piece_pos := none, possible_moves := [] }) := by
  unfold attempt_move
  simp only [hsel]
  rw [if_pos hmv]

lemma attempt_move_success (sz : List (Int × Int)) (g : Game) (sr sc er ec : Int)
    (hsel : g.selected_piece_pos = some (sr, sc))
    (hmv : (er, ec) ∈ get_valid_moves g.board sr sc) :
    attempt_move sz g er ec =
      (true, { check_game_over sz (switch_turn { g with
          board := setCell (setCell g.board sr sc Cell.empty) er ec (cell g.board sr sc)
          king_pos := if cell g.board sr sc = Cell.king then (er, ec) else g.king_pos
          king_kills := if cell g.board sr sc = Cell.king ∧ cell g.board er ec = Cell.knight
                        then g.king_kills + 1 else g.king_kills
          king_charge_cooldown := if g.player_turn = 1 ∧ 0 < g.king_charge_cooldown
                                  then g.king_charge_cooldown - 1 else g.king_charge_cooldown
          move_history := { start_pos := (sr, sc), end_pos := (er, ec),
                            piece_moved := cell g.board sr sc,
                            piece_captured := cell g.board er ec,
                            king_kills_before := g.king_kills,
                            player_turn_before := g.player_turn,
                            king_pos_before := g.king_pos,
                            turn_count_before := g.turn_count,
                            board_state := g.board,
                            charge_cd_before := g.king_charge_cooldown,
                            escape_avail_before := g.king_escape_available } :: g.move_history })
        with selected_piece_pos := none, possible_moves := [] }) := by
  unfold attempt_move
  simp only [hsel]
  rw [if_neg (not_not_intro hmv)]

/-! ### Claim theorems -/

/-- C1: for every state with a selected piece and every legal destination
of that piece, attempt_move followed immediately by undo_last_move
restores the board, turn, turn count, king kill count, king position,
charge cooldown, escape flag and the history stack to their exact
pre-move values. -/
theorem attempt_move_undo_roundtrip (sz : List (Int × Int)) (g : Game) (sr sc er ec : Int)
    (hsel : g.selected_piece_pos = some (sr, sc))
    (hmv : (er, ec) ∈ get_valid_moves g.board sr sc) :
    (attempt_move sz g er ec).1 = true ∧
    (undo_last_move (attempt_move sz g er ec).2).board = g.board ∧
    (undo_last_move (attempt_move sz g er ec).2).player_turn = g.player_turn ∧
    (undo_last_move (attempt_move sz g er ec).2).turn_count = g.turn_count ∧
    (undo_last_move (attempt_move sz g er ec).2).king_kills = g.king_kills ∧
    (undo_last_move (attempt_move sz g er ec).2).king_pos = g.king_pos ∧
    (undo_last_move (attempt_move sz g er ec).2).king_charge_cooldown = g.king_charge_cooldown ∧
    (undo_last_move (attempt_move sz g er ec).2).king_escape_available = g.king_escape_available ∧
    (undo_last_move (attempt_move sz g er ec).2).move_history = g.move_history := by
  rw [attempt_move_success sz g sr sc er ec hsel hmv]
  refine ⟨rfl, ?_, ?_, ?_, ?_, ?_, ?_, ?_, ?_⟩ <;> simp [undo_last_move]

/-- C1 witness: on the fresh game with the king selected, moving to
(1,1) succeeds and undo restores the board. -/
theorem attempt_move_undo_roundtrip_witness :
    (attempt_move [] c1_state 1 1).1 = true ∧
    (undo_last_move (attempt_move [] c1_state 1 1).2).board = c1_state.board := by
  have h := attempt_move_undo_roundtrip [] c1_state 2 2 1 1 rfl (by decide)
  exact ⟨h.1, h.2.1⟩

/-- C5: for every state with a selected piece and every destination not
in the legal-move set of that piece, attempt_move returns failure and
the only change is that the selection and legal-move cache are cleared:
board, turn, counters, cooldown, escape flag and history are all kept. -/
theorem attempt_move_illegal_noop (sz : List (Int × Int)) (g : Game) (sr sc er ec : Int)
    (hsel : g.selected_piece_pos = some (sr, sc))
    (hmv : (er, ec) ∉ get_valid_moves g.board sr sc) :
    attempt_move sz g er ec =
      (false, { g with selected_piece_pos := none, possible_moves := [] }) :=
  attempt_move_invalid sz g sr sc er ec hsel hmv

/-- C5 witness: on the fresh game with the king selected, the illegal
destination (0,0) fails and only clears the selection. -/
theorem attempt_move_illegal_noop_witness :
    attempt_move [] c5_state 0 0 =
      (false, { c5_state with selected_piece_pos := none, possible_moves := [] }) :=
  attempt_move_illegal_noop [] c5_state 2 2 0 0 rfl (by decide)

/-- C2: after every applied move the terminal conditions are evaluated
in the fixed priority order safe zone, three kills, no knights,
surrounded by three, king stuck, thirty turns, and the first true
condition alone decides; in particular a king on a safe zone wins for
the king side no matter how large the turn count is. -/
theorem check_game_over_priority (sz : List (Int × Int)) (g : Game) :
    (g.king_pos ∈ sz →
      (check_game_over sz g).winner = 1 ∧ (check_game_over sz g).game_over = true) ∧
    (g.king_pos ∉ sz → 3 ≤ g.king_kills →
      (check_game_over sz g).winner = 1 ∧ (check_game_over sz g).game_over = true) ∧
    (g.king_pos ∉ sz → g.king_kills < 3 →
      get_piece_positions g.board Cell.knight = [] →
      (check_game_over sz g).winner = 1 ∧ (check_game_over sz g).game_over = true) ∧
    (g.king_pos ∉ sz → g.king_kills < 3 →
      get_piece_positions g.board Cell.knight ≠ [] →
      3 ≤ surrounding_knights g.board g.king_pos.1 g.king_pos.2 →
      (check_game_over sz g).winner = 2 ∧ (check_game_over sz g).game_over = true) ∧
    (g.king_pos ∉ sz → g.king_kills < 3 →
      get_piece_positions g.board Cell.knight ≠ [] →
      surrounding_knights g.board g.king_pos.1 g.king_pos.2 < 3 →
      get_valid_moves g.board g.king_pos.1 g.king_pos.2 = [] →
      (check_game_over sz g).winner = 2 ∧ (check_game_over sz g).game_over = true) ∧
    (g.king_pos ∉ sz → g.king_kills < 3 →
      get_piece_positions g.board Cell.knight ≠ [] →
      surrounding_knights g.board g.king_pos.1 g.king_pos.2 < 3 →
      get_valid_moves g.board g.king_pos.1 g.king_pos.2 ≠ [] →
      30 ≤ g.turn_count →
      (check_game_over sz g).winner = 2 ∧ (check_game_over sz g).game_over = true) ∧
    (g.king_pos ∉ sz → g.king_kills < 3 →
      get_piece_positions g.board Cell.knight ≠ [] →
      surrounding_knights g.board g.king_pos.1 g.king_pos.2 < 3 →
      get_valid_moves g.board g.king_pos.1 g.king_pos.2 ≠ [] →
      g.turn_count < 30 →
      (check_game_over sz g).winner = 0 ∧ (check_game_over sz g).game_over = false) := by
  unfold check_game_over
  split_ifs with h1 h2 h3 h4 h5 h6 <;>
    refine ⟨?_, ?_, ?_, ?_, ?_, ?_, ?_⟩ <;> intros <;> simp_all <;> omega

/-- C2 witness: a state whose king occupies a safe zone while the turn
count is already 30: the safe zone condition wins for the king side. -/
theorem check_game_over_priority_witness :
    c2_state.king_pos ∈ c2_zones ∧ 30 ≤ c2_state.turn_count ∧
    (check_game_over c2_zones c2_state).winner = 1 ∧
    (check_game_over c2_zones c2_state).game_over = true := by
  have h := (check_game_over_priority c2_zones c2_state).1 (by decide)
  exact ⟨by decide, by decide, h.1, h.2⟩

/-- C4: get_valid_moves returns the empty list for an out-of-bounds or
empty position; for an in-bounds king it returns exactly the in-bounds
king-adjacent squares holding empty or knight that are not under
attack; for an in-bounds knight exactly the in-bounds knight-offset
squares that are empty. -/
theorem get_valid_moves_spec (b : Board) (r c : Int) :
    (¬ InB r c → get_valid_moves b r c = []) ∧
    (cell b r c = Cell.empty → get_valid_moves b r c = []) ∧
    (InB r c → cell b r c = Cell.king → ∀ m : Int × Int,
      (m ∈ get_valid_moves b r c ↔
        ∃ d ∈ king_moves, m = (r + d.1, c + d.2) ∧ InB m.1 m.2 ∧
          (cell b m.1 m.2 = Cell.empty ∨ cell b m.1 m.2 = Cell.knight) ∧
          ¬ is_square_under_attack b m.1 m.2)) ∧
    (InB r c → cell b r c = Cell.knight → ∀ m : Int × Int,
      (m ∈ get_valid_moves b r c ↔
        ∃ d ∈ knight_moves, m = (r + d.1, c + d.2) ∧ InB m.1 m.2 ∧
          cell b m.1 m.2 = Cell.empty)) := by
  refine ⟨?_, ?_, ?_, ?_⟩
  · intro h
    unfold get_valid_moves
    rw [if_neg h]
  · intro h
    unfold get_valid_moves
    split_ifs with hin
    · rw [h]
    · rfl
  · intro hin hk m
    rw [mem_get_valid_moves]
    constructor
    · rintro ⟨-, ⟨-, hrest⟩ | ⟨hn, -⟩⟩
      · exact hrest
      · rw [hk] at hn
        cases hn
    · intro hrest
      exact ⟨hin, Or.inl ⟨hk, hrest⟩⟩
  · intro hin hn m
    rw [mem_get_valid_moves]
    constructor
    · rintro ⟨-, ⟨hk, -⟩ | ⟨-, hrest⟩⟩
      · rw [hn] at hk
        cases hk
      · exact hrest
    · intro hrest
      exact ⟨hin, Or.inr ⟨hn, hrest⟩⟩

/-- C4 witness: on the fresh board the king at (2,2) may step to (1,1),
and the empty square (2,0) yields no moves. -/
theorem get_valid_moves_spec_witness :
    (1, 1) ∈ get_valid_moves create_board 2 2 ∧
    get_valid_moves create_board 2 0 = [] := by
  constructor
  · exact ((get_valid_moves_spec create_board 2 2).2.2.1 (by decide) (by decide)
      (1, 1)).mpr (by decide)
  · exact (get_valid_moves_spec create_board 2 0).2.1 (by decide)

/-- C6 counterexample: on the king turn with zero cooldown, but with
every two-step square out of bounds or under attack, activating the
charge is a no-op: the cooldown stays 0, it is not set to 5, and no
move options are produced, refuting the unconditional cooldown clause
of the claim. -/
theorem royal_charge_cooldown_counterexample :
    c6_state.player_turn = 1 ∧ c6_state.king_charge_cooldown = 0 ∧
    charge_moves c6_state.board c6_state.king_pos.1 c6_state.king_pos.2 = [] ∧
    (activate_royal_charge c6_state).king_charge_cooldown = 0 ∧
    (activate_royal_charge c6_state).king_charge_cooldown ≠ 5 ∧
    (activate_royal_charge c6_state).possible_moves = [] := by
  refine ⟨by decide, by decide, by decide, by decide, by decide, by decide⟩

/-- C6 amended: on the king turn with zero cooldown, the computed
charge squares are exactly those two king-steps away, in bounds, empty
or knight and not under attack; when at least one such square exists
the activation selects the king with exactly those options and sets the
cooldown to 5, and when none exists the activation changes nothing. -/
theorem royal_charge_spec (g : Game)
    (h1 : g.player_turn = 1) (h2 : g.king_charge_cooldown = 0) :
    (charge_moves g.board g.king_pos.1 g.king_pos.2 = [] →
      activate_royal_charge g = g) ∧
    (charge_moves g.board g.king_pos.1 g.king_pos.2 ≠ [] →
      (activate_royal_charge g).selected_piece_pos = some g.king_pos ∧
      (activate_royal_charge g).possible_moves =
        charge_moves g.board g.king_pos.1 g.king_pos.2 ∧
      (activate_royal_charge g).king_charge_cooldown = 5 ∧
      (activate_royal_charge g).board = g.board) ∧
    (∀ m : Int × Int, m ∈ charge_moves g.board g.king_pos.1 g.king_pos.2 ↔
      ∃ d ∈ king_moves, m = (g.king_pos.1 + d.1 * 2, g.king_pos.2 + d.2 * 2) ∧
        InB m.1 m.2 ∧
        (cell g.board m.1 m.2 = Cell.empty ∨ cell g.board m.1 m.2 = Cell.knight) ∧
        ¬ is_square_under_attack g.board m.1 m.2) := by
  have hgate : ¬ (g.player_turn ≠ 1 ∨ 0 < g.king_charge_cooldown) := by
    rw [h1, h2]
    simp
  refine ⟨?_, ?_, ?_⟩
  · intro hnone
    unfold activate_royal_charge
    rw [if_neg hgate, if_neg (by simp [hnone])]
  · intro hsome
    unfold activate_royal_charge
    rw [if_neg hgate, if_pos hsome]
    exact ⟨rfl, rfl, rfl, rfl⟩
  · intro m
    unfold charge_moves
    simp only [List.mem_filterMap, Option.ite_none_right_eq_some, Option.some.injEq]
    constructor
    · rintro ⟨d, hd, ⟨hin, hcell, hatt⟩, heq⟩
      subst heq
      exact ⟨d, hd, rfl, hin, hcell, hatt⟩
    · rintro ⟨d, hd, heq, hin, hcell, hatt⟩
      subst heq
      exact ⟨d, hd, ⟨hin, hcell, hatt⟩, rfl⟩

/-- C6 witness: on the fresh game, charge squares exist, so activating
the charge sets the cooldown to 5. -/
theorem royal_charge_spec_witness :
    (activate_royal_charge initGame).king_charge_cooldown = 5 :=
  (((royal_charge_spec initGame rfl rfl).2.1 (by decide))).2.2.1

/-- C3: on the fresh game it is the king turn, the escape flag is
available, and qualifying escape squares exist, yet the
activate_royal_escape method the program actually runs (the later stub
definition that overrides the functional one in the class body) changes
nothing: no move options appear and the flag stays available. The dead
first definition would have behaved as the claim describes: it selects
the king with exactly the computed escape squares and clears the flag. -/
theorem royal_escape_stub_overrides :
    initGame.player_turn = 1 ∧
    initGame.king_escape_available = true ∧
    escape_moves [] initGame.board ≠ [] ∧
    activate_royal_escape initGame = initGame ∧
    (activate_royal_escape initGame).king_escape_available = true ∧
    (activate_royal_escape initGame).possible_moves = [] ∧
    (activate_royal_escape_body [] initGame).king_escape_available = false ∧
    (activate_royal_escape_body [] initGame).possible_moves = escape_moves [] initGame.board ∧
    (activate_royal_escape_body [] initGame).selected_piece_pos = some initGame.king_pos := by
  refine ⟨rfl, rfl, by decide, rfl, rfl, rfl, by decide, by decide, by decide⟩

/-- C10: on a board with zero knights, the guarded average-distance
term is 0 and evaluate_board equals the sum of all other terms: no
division by the knight count takes place, the evaluation is total. -/
theorem avg_term_zero_knights (sz : List (Int × Int)) (b : Board) (kp : Int × Int) (tc : Nat)
    (h : get_piece_positions b Cell.knight = []) :
    avg_distance_term b kp.1 kp.2 = 0 ∧
    evaluate_board sz b kp tc =
      ((get_piece_positions b Cell.knight).length : ℚ) * 15
      - ((get_valid_moves b kp.1 kp.2).length : ℚ) * 10
      + (threat_bonus b kp.1 kp.2 : ℚ)
      + (surrounding_knights b kp.1 kp.2 : ℚ) * 20
      + (safe_zone_denial sz b : ℚ)
      + (closest_zone_block sz b kp.1 kp.2 : ℚ)
      + (if is_square_under_attack b kp.1 kp.2 then 25 else 0)
      + (tc : ℚ) * 2 := by
  have hz : avg_distance_term b kp.1 kp.2 = 0 := by
    unfold avg_distance_term
    rw [if_pos h]
  refine ⟨hz, ?_⟩
  unfold evaluate_board
  rw [hz]
  ring

/-- C10 witness: the empty board has no knights and its average
distance term is 0. -/
theorem avg_term_zero_knights_witness :
    get_piece_positions emptyBoard Cell.knight = [] ∧
    avg_distance_term emptyBoard 2 2 = 0 :=
  ⟨by decide, (avg_term_zero_knights [] emptyBoard (2, 2) 1 (by decide)).1⟩

/-- C8 counterexample: with the king at (2,2) and a single knight at
(0,1), that knight has two legal destinations within Manhattan distance
2 of the king, so the threat accumulation of evaluate_board contributes
10, not 5 times the number of such knights, which is 1. -/
theorem threat_bonus_counterexample :
    threat_bonus c8_board 2 2 = 10 ∧
    (knights_with_close_dest c8_board 2 2).length = 1 ∧
    threat_bonus c8_board 2 2 ≠
      5 * ((knights_with_close_dest c8_board 2 2).length : ℤ) := by
  refine ⟨by decide, by decide, by decide⟩

lemma foldl_add5_count {α : Type} (P : α → Prop) [DecidablePred P] :
    ∀ (l : List α) (a : ℤ),
      l.foldl (fun acc m => if P m then acc + 5 else acc) a =
        a + 5 * (l.countP (fun m => decide (P m)) : ℤ) := by
  intro l
  induction l with
  | nil => intro a; simp
  | cons x l ih =>
    intro a
    rw [List.foldl_cons, List.countP_cons]
    by_cases hx : P x
    · rw [if_pos hx, ih, decide_eq_true hx]
      have h1 : (if (true = true) then 1 else 0) = 1 := rfl
      rw [h1]
      push_cast
      ring
    · rw [if_neg hx, ih, decide_eq_false hx]
      have h0 : (if (false = true) then 1 else 0) = 0 := rfl
      rw [h0]
      push_cast
      ring

lemma threat_bonus_foldl (b : Board) (kr kc : Int) :
    ∀ (l : List (Int × Int)) (a : ℤ),
      l.foldl (fun acc kp =>
        (get_valid_moves b kp.1 kp.2).foldl (fun acc2 m =>
          if manhattan m (kr, kc) ≤ 2 then acc2 + 5 else acc2) acc) a =
      a + 5 * ((l.flatMap (fun kp => (get_valid_moves b kp.1 kp.2).filter
          (fun m => decide (manhattan m (kr, kc) ≤ 2)))).length : ℤ) := by
  intro l
  induction l with
  | nil => intro a; simp
  | cons kp l ih =>
    intro a
    rw [List.foldl_cons, ih,
      foldl_add5_count (fun m => manhattan m (kr, kc) ≤ 2) (get_valid_moves b kp.1 kp.2) a,
      List.flatMap_cons, List.length_append, List.countP_eq_length_filter]
    push_cast
    ring

/-- C8 amended: the threat accumulation of evaluate_board contributes
exactly 5 per (knight, legal destination) pair whose destination lies
within Manhattan distance 2 of the king, not 5 per knight. -/
theorem threat_bonus_per_pair (b : Board) (kr kc : Int) :
    threat_bonus b kr kc =
      5 * (((get_piece_positions b Cell.knight).flatMap (fun kp =>
        (get_valid_moves b kp.1 kp.2).filter
          (fun m => decide (manhattan m (kr, kc) ≤ 2)))).length : ℤ) := by
  unfold threat_bonus
  rw [threat_bonus_foldl]
  ring

lemma ai_step_valid {α : Type} (score : α → ℚ) (seen : List α)
    (acc : Option (ℚ × List α)) (m : α) (h : BCValid score seen acc) :
    BCValid score (seen ++ [m]) (ai_step score acc m) := by
  cases acc with
  | none =>
    have hseen : seen = [] := h
    subst hseen
    refine ⟨?_, ?_, ?_⟩
    · intro x hx
      rw [List.mem_singleton.mp hx]
    · exact ⟨m, List.mem_singleton.mpr rfl, rfl⟩
    · simp
  | some pair =>
    obtain ⟨best, cands⟩ := pair
    obtain ⟨hle, ⟨m0, hm0, hm0s⟩, hcands⟩ := h
    show BCValid score (seen ++ [m])
      (if best < score m then some (score m, [m])
       else if score m = best then some (best, cands ++ [m]) else some (best, cands))
    split_ifs with hgt heq
    · refine ⟨?_, ?_, ?_⟩
      · intro x hx
        rcases List.mem_append.mp hx with hx | hx
        · exact le_of_lt (lt_of_le_of_lt (hle x hx) hgt)
        · rw [List.mem_singleton.mp hx]
      · exact ⟨m, List.mem_append_right _ (List.mem_singleton.mpr rfl), rfl⟩
      · rw [List.filter_append]
        have h1 : seen.filter (fun x => decide (score x = score m)) = [] := by
          rw [List.filter_eq_nil_iff]
          intro x hx
          simp only [decide_eq_true_eq]
          intro he
          exact absurd hgt (not_lt_of_le (he ▸ hle x hx))
        rw [h1]
        simp
    · refine ⟨?_, ?_, ?_⟩
      · intro x hx
        rcases List.mem_append.mp hx with hx | hx
        · exact hle x hx
        · rw [List.mem_singleton.mp hx]
          exact le_of_eq heq
      · exact ⟨m0, List.mem_append_left _ hm0, hm0s⟩
      · rw [List.filter_append, ← hcands]
        have h1 : [m].filter (fun x => decide (score x = best)) = [m] := by
          simp [heq]
        rw [h1]
    · have hlt : score m < best := lt_of_le_of_ne (le_of_not_lt hgt) heq
      refine ⟨?_, ?_, ?_⟩
      · intro x hx
        rcases List.mem_append.mp hx with hx | hx
        · exact hle x hx
        · rw [List.mem_singleton.mp hx]
          exact le_of_lt hlt
      · exact ⟨m0, List.mem_append_left _ hm0, hm0s⟩
      · rw [List.filter_append, ← hcands]
        have h1 : [m].filter (fun x => decide (score x = best)) = [] := by
          simp [ne_of_lt hlt]
        rw [h1, List.append_nil]

lemma best_candidates_valid {α : Type} (score : α → ℚ) :
    ∀ (l seen : List α) (acc : Option (ℚ × List α)), BCValid score seen acc →
      BCValid score (seen ++ l) (best_candidates score acc l) := by
  intro l
  induction l with
  | nil =>
    intro seen acc h
    rw [List.append_nil]
    exact h
  | cons m l ih =>
    intro seen acc h
    have h3 := ih (seen ++ [m]) (ai_step score acc m) (ai_step_valid score seen acc m h)
    rw [List.append_cons]
    exact h3

lemma best_candidates_spec {α : Type} (score : α → ℚ) (l : List α) :
    BCValid score l (best_candidates score none l) := by
  have h := best_candidates_valid score l [] none rfl
  rw [List.nil_append] at h
  exact h

lemma possible_ai_moves_eq_nil {b : Board} :
    possible_ai_moves b = [] ↔
      ∀ kp ∈ get_piece_positions b Cell.knight, get_valid_moves b kp.1 kp.2 = [] := by
  unfold possible_ai_moves
  rw [List.flatMap_eq_nil_iff]
  constructor
  · intro h kp hkp
    exact List.map_eq_nil_iff.mp (h kp hkp)
  · intro h kp hkp
    rw [h kp hkp]
    rfl

/-- C7: ai_make_move returns none exactly when no knight has any legal
move; otherwise every move in the returned candidate list (from which
the source picks uniformly at random) attains the exact maximum
evaluation score over all (knight, destination) pairs, and every pair
attaining the maximum is in the list: a strictly lower-scoring pair is
never returned. -/
theorem ai_make_move_spec (sz : List (Int × Int)) (g : Game) :
    (ai_make_move sz g = none ↔
      ∀ kp ∈ get_piece_positions g.board Cell.knight,
        get_valid_moves g.board kp.1 kp.2 = []) ∧
    (∀ cands, ai_make_move sz g = some cands →
      cands ≠ [] ∧
      (∀ m ∈ cands, m ∈ possible_ai_moves g.board ∧
        ∀ m2 ∈ possible_ai_moves g.board,
          ai_move_score sz g m2 ≤ ai_move_score sz g m) ∧
      (∀ m2 ∈ possible_ai_moves g.board,
        (∀ m3 ∈ possible_ai_moves g.board,
          ai_move_score sz g m3 ≤ ai_move_score sz g m2) →
        m2 ∈ cands)) := by
  have hv := best_candidates_spec (ai_move_score sz g) (possible_ai_moves g.board)
  unfold ai_make_move
  by_cases hp : possible_ai_moves g.board = []
  · rw [if_pos hp]
    refine ⟨?_, ?_⟩
    · simp only [true_iff]
      exact possible_ai_moves_eq_nil.mp hp
    · intro cands hc
      cases hc
  · rw [if_neg hp]
    cases hbc : best_candidates (ai_move_score sz g) none (possible_ai_moves g.board) with
    | none =>
      rw [hbc] at hv
      exact absurd hv hp
    | some pair =>
      obtain ⟨best, cands⟩ := pair
      rw [hbc] at hv
      obtain ⟨hle, ⟨m0, hm0, hm0s⟩, hcands⟩ := hv
      refine ⟨?_, ?_⟩
      · constructor
        · intro h
          cases h
        · intro hall
          exact absurd (possible_ai_moves_eq_nil.mpr hall) hp
      · intro cands' hc'
        have hcc : cands = cands' := by
          injection hc'
        subst hcc
        refine ⟨?_, ?_, ?_⟩
        · intro hnil
          have : m0 ∈ cands := by
            rw [hcands, List.mem_filter]
            exact ⟨hm0, by simp [hm0s]⟩
          rw [hnil] at this
          cases this
        · intro m hm
          rw [hcands, List.mem_filter] at hm
          obtain ⟨hmem, hsc⟩ := hm
          have hms : ai_move_score sz g m = best := by
            simpa using hsc
          exact ⟨hmem, fun m2 hm2 => hms ▸ hle m2 hm2⟩
        · intro m2 hm2 hmax
          have hub : ai_move_score sz g m2 ≤ best := hle m2 hm2
          have hlb : best ≤ ai_move_score sz g m2 := hm0s ▸ hmax m0 hm0
          rw [hcands, List.mem_filter]
          exact ⟨hm2, by simp [le_antisymm hub hlb]⟩

/-- C7 witness: on the fresh game the knights have legal moves, so the
AI does not report a stalemate. -/
theorem ai_make_move_spec_witness : ai_make_move [] initGame ≠ none := by
  intro hnone
  have h := (ai_make_move_spec [] initGame).1.mp hnone
  have h2 : get_valid_moves initGame.board 0 0 = [] := h (0, 0) (by decide)
  exact absurd h2 (by decide)

lemma attempt_move_counts (sz : List (Int × Int)) (g : Game) (er ec : Int)
    (h : one_king_inv g) :
    one_king_inv (attempt_move sz g er ec).2 ∧
    piece_count (attempt_move sz g er ec).2.board Cell.knight ≤
      piece_count g.board Cell.knight := by
  obtain ⟨hb, hh⟩ := h
  cases hsel : g.selected_piece_pos with
  | none =>
    rw [attempt_move_none sz g er ec hsel]
    exact ⟨⟨hb, hh⟩, le_refl _⟩
  | some sp =>
    obtain ⟨sr, sc⟩ := sp
    by_cases hmv : (er, ec) ∈ get_valid_moves g.board sr sc
    · rw [attempt_move_success sz g sr sc er ec hsel hmv]
      have hin_start : InB sr sc := mem_gvm_inb hmv
      have hne : (er, ec) ≠ (sr, sc) := mem_gvm_ne hmv
      have hmidk : cell (setCell g.board sr sc Cell.empty) er ec = cell g.board er ec :=
        cell_setCell_ne g.board sr sc Cell.empty er ec hne
      have hcount : piece_count
          (setCell (setCell g.board sr sc Cell.empty) er ec (cell g.board sr sc))
          Cell.king = 1 ∧
          piece_count
          (setCell (setCell g.board sr sc Cell.empty) er ec (cell g.board sr sc))
          Cell.knight ≤ piece_count g.board Cell.knight := by
        rcases mem_gvm_piece hmv with hk | hn
        · obtain ⟨hin_end, hcell_end⟩ := mem_gvm_king_target hmv hk
          rw [hk]
          have e1k := piece_count_setCell g.board sr sc Cell.empty Cell.king hin_start
          have e2k := piece_count_setCell (setCell g.board sr sc Cell.empty) er ec
            Cell.king Cell.king hin_end
          have e1n := piece_count_setCell g.board sr sc Cell.empty Cell.knight hin_start
          have e2n := piece_count_setCell (setCell g.board sr sc Cell.empty) er ec
            Cell.king Cell.knight hin_end
          rw [hk] at e1k e1n
          rw [hmidk] at e2k e2n
          rcases hcell_end with hce | hce <;> rw [hce] at e2k e2n <;>
            simp at e1k e2k e1n e2n <;> constructor <;> omega
        · obtain ⟨hin_end, hcell_end⟩ := mem_gvm_knight_target hmv hn
          rw [hn]
          have e1k := piece_count_setCell g.board sr sc Cell.empty Cell.king hin_start
          have e2k := piece_count_setCell (setCell g.board sr sc Cell.empty) er ec
            Cell.knight Cell.king hin_end
          have e1n := piece_count_setCell g.board sr sc Cell.empty Cell.knight hin_start
          have e2n := piece_count_setCell (setCell g.board sr sc Cell.empty) er ec
            Cell.knight Cell.knight hin_end
          rw [hn] at e1k e1n
          rw [hmidk, hcell_end] at e2k e2n
          simp at e1k e2k e1n e2n
          exact ⟨by omega, by omega⟩
      constructor
      · unfold one_king_inv
        simp only [check_game_over_board, switch_turn_board, check_game_over_move_history,
          switch_turn_move_history]
        refine ⟨hcount.1, ?_⟩
        intro r hr
        rcases List.mem_cons.mp hr with hrec | hold
        · rw [hrec]
          exact hb
        · exact hh r hold
      · simp only [check_game_over_board, switch_turn_board]
        exact hcount.2
    · rw [attempt_move_invalid sz g sr sc er ec hsel hmv]
      exact ⟨⟨hb, hh⟩, le_refl _⟩

/-- C9 counterexample: c9_state is reached from the fresh game by five
legal select-and-move interactions, the last being a king capture of
a knight; undoing that capture restores the knight, so the knight count
increases from 3 back to 4: undo does not keep the knight count
non-increasing. -/
theorem undo_after_capture_counterexample :
    c9_state.king_kills = 1 ∧
    piece_count c9_state.board Cell.knight = 3 ∧
    piece_count (undo_last_move c9_state).board Cell.knight = 4 := by
  refine ⟨by decide, by decide, by decide⟩

/-- C9 amended: on every state satisfying the one-king invariant (one
king on the board and on every stored snapshot), each core operation
preserves that invariant; applyMove never increases the knight count;
and the ability activations never touch the board. Undo restores the
snapshot taken when the undone move was applied, which can restore a
captured knight. -/
theorem board_invariant_preserved (sz : List (Int × Int)) (g : Game) (rr cc er ec : Int)
    (h : one_king_inv g) :
    one_king_inv (select_piece g rr cc).2 ∧
    one_king_inv (attempt_move sz g er ec).2 ∧
    one_king_inv (undo_last_move g) ∧
    one_king_inv (activate_royal_charge g) ∧
    one_king_inv (activate_royal_escape g) ∧
    one_king_inv (activate_royal_escape_body sz g) ∧
    piece_count (attempt_move sz g er ec).2.board Cell.knight ≤
      piece_count g.board Cell.knight ∧
    (activate_royal_charge g).board = g.board ∧
    (activate_royal_escape g).board = g.board ∧
    (activate_royal_escape_body sz g).board = g.board := by
  obtain ⟨hb, hh⟩ := h
  have hatt := attempt_move_counts sz g er ec ⟨hb, hh⟩
  refine ⟨?_, hatt.1, ?_, ?_, ⟨hb, hh⟩, ?_, hatt.2, ?_, rfl, ?_⟩
  · unfold one_king_inv
    rw [select_piece_board, select_piece_move_history]
    exact ⟨hb, hh⟩
  · unfold undo_last_move
    cases hist : g.move_history with
    | nil => exact ⟨hb, hh⟩
    | cons last rest =>
      refine ⟨?_, ?_⟩
      · show piece_count last.board_state Cell.king = 1
        exact hh last (by rw [hist]; exact List.mem_cons_self _ _)
      · show ∀ r ∈ rest, piece_count r.board_state Cell.king = 1
        intro r hr
        exact hh r (by rw [hist]; exact List.mem_cons_of_mem _ hr)
  · unfold one_king_inv
    rw [activate_royal_charge_board, activate_royal_charge_move_history]
    exact ⟨hb, hh⟩
  · unfold one_king_inv
    rw [activate_royal_escape_body_board, activate_royal_escape_body_move_history]
    exact ⟨hb, hh⟩
  · rw [activate_royal_charge_board]
  · rw [activate_royal_escape_body_board]

/-- C9 witness: the fresh game satisfies the invariant, and a move
attempt from it does not increase the knight count. -/
theorem board_invariant_preserved_witness :
    one_king_inv initGame ∧
    piece_count (attempt_move [] initGame 0 0).2.board Cell.knight ≤
      piece_count initGame.board Cell.knight := by
  have hinv : one_king_inv initGame :=
    ⟨by decide, fun r hr => absurd hr (List.not_mem_nil r)⟩
  exact ⟨hinv, (board_invariant_preserved [] initGame 0 0 0 0 hinv).2.2.2.2.2.2.1⟩
